import Mathlib

/-!
Shallow embedding of the leetcode-doc-generator repository (a browser
extension with two core modules): the content script (validators, language
and title normalizers, submission-id parsing, the two-stage extraction
pipeline) and the storage module (an ordered CRUD store over a single
persisted aggregate).  Pure JavaScript functions become Lean functions on
lists of characters; the persisted key-value storage becomes explicit state
passing over an optional aggregate value; thrown JavaScript errors become
Except.error values carrying the thrown message.
-/

/-- Membership in the JavaScript regular-expression class backslash-s
(WhiteSpace together with LineTerminator), which is also the character class
stripped by the JavaScript trim method.  The enumeration lists the code
points of that class (ASCII controls, space, NBSP, Ogham space, the general
punctuation spaces, line and paragraph separators, narrow and medium
mathematical spaces, ideographic space, and the BOM). -/
def isJsSpace (c : Char) : Bool :=
  c.toNat = 0x9 || c.toNat = 0xa || c.toNat = 0xb || c.toNat = 0xc ||
  c.toNat = 0xd || c.toNat = 0x20 || c.toNat = 0xa0 || c.toNat = 0x1680 ||
  (0x2000 ≤ c.toNat && c.toNat ≤ 0x200a) || c.toNat = 0x2028 ||
  c.toNat = 0x2029 || c.toNat = 0x202f || c.toNat = 0x205f ||
  c.toNat = 0x3000 || c.toNat = 0xfeff

/-- Membership in the JavaScript character class listing the ranges a-z and
A-Z, used by the letter-counting heuristics of the validators. -/
def isAsciiLetter (c : Char) : Bool :=
  ('a' ≤ c && c ≤ 'z') || ('A' ≤ c && c ≤ 'Z')

/-- The JavaScript trim method on a list of characters: strips the
characters of isJsSpace from both ends. -/
def jsTrim (cs : List Char) : List Char :=
  ((cs.dropWhile isJsSpace).reverse.dropWhile isJsSpace).reverse

/-- The JavaScript trim method on strings. -/
def strTrim (s : String) : String :=
  String.mk (jsTrim s.data)

/-- Substring test on character lists: true when the needle occurs
contiguously in the haystack.  Models both the includes method and a
regular expression consisting of a literal. -/
def listContains (needle : List Char) : List Char → Bool
  | [] => needle.isEmpty
  | c :: rest => needle.isPrefixOf (c :: rest) || listContains needle rest

/-- Substring test on strings, needle second (the receiver of the
JavaScript includes method comes first). -/
def strContains (hay needle : String) : Bool :=
  listContains needle.data hay.data

/-- Matcher for a regular expression of the shape: literal, then
backslash-s star, then a single closing literal character.  Models the
patterns if-paren, for-paren, while-paren and paren-paren of the code
validator.  Greedy whitespace skipping is equivalent to the regular
expression because the closing character is never a whitespace. -/
def matchSeqSpaces (pre : List Char) (close : Char) : List Char → Bool
  | [] => false
  | c :: rest =>
    (pre.isPrefixOf (c :: rest) &&
      (match ((c :: rest).drop pre.length).dropWhile isJsSpace with
       | [] => false
       | x :: _ => x = close)) ||
    matchSeqSpaces pre close rest

/-- Matcher for a regular expression of the shape: opening literal
character, then any characters, then a closing literal character (the
brace-with-content and bracket-with-content patterns).  It holds exactly
when some occurrence of the opening character is followed, strictly later,
by the closing character; testing the suffix after the first occurrence is
equivalent. -/
def bracketPair (o c : Char) (hay : List Char) : Bool :=
  match hay.dropWhile (fun x => !(x = o)) with
  | [] => false
  | _ :: rest => rest.contains c

/-- Case-insensitive substring test: both sides are lowered with the ASCII
lowering (JavaScript canonicalization of the i flag agrees with ASCII
folding on the ASCII-only patterns used here). -/
def listContainsCI (needle hay : List Char) : Bool :=
  listContains (needle.map Char.toLower) (hay.map Char.toLower)

/-- The fixed code-shape pattern set of isValidCode in the content script,
one disjunct per entry of the codePatterns array, in source order. -/
def hasCodePattern (cs : List Char) : Bool :=
  listContainsCI "function".data cs ||
  listContainsCI "class".data cs ||
  listContainsCI "def ".data cs ||
  listContainsCI "public".data cs ||
  listContainsCI "private".data cs ||
  listContainsCI "return".data cs ||
  matchSeqSpaces "if".data '(' cs ||
  matchSeqSpaces "for".data '(' cs ||
  matchSeqSpaces "while".data '(' cs ||
  bracketPair '{' '}' cs ||
  bracketPair '[' ']' cs ||
  listContainsCI "import".data cs ||
  listContainsCI "include".data cs ||
  listContains "#include".data cs ||
  listContainsCI "package".data cs ||
  listContains "var ".data cs ||
  listContains "let ".data cs ||
  listContains "const ".data cs ||
  listContains "=>".data cs ||
  matchSeqSpaces "(".data ')' cs

/-- Count of ASCII letters in a character list, as produced by matching the
global letter character class and taking the length. -/
def letterCnt (cs : List Char) : Nat :=
  (cs.filter isAsciiLetter).length

/-- isValidCode from the content script.  The argument is an option: none
models an absent or non-string value (both rejected by the typeof guard).
The floating-point comparison of letterCount over totalLength against 0.2
is rendered exactly as five times the letter count against the total
length, which agrees with the double-precision computation for every
realizable string length.  An empty string is also falsy in the source but
is equally rejected by the length guard. -/
def isValidCode : Option String → Bool
  | none => false
  | some s =>
    let cs := s.data
    if (jsTrim cs).length < 10 then false
    else
      let hasPat := hasCodePattern cs
      if 5 * letterCnt cs < cs.length then false
      else hasPat

/-- isValidLanguage from the content script: non-string or falsy rejected,
length above 30 rejected, any newline, carriage return or tab rejected,
then the letter count must exceed half the length (the comparison against
length times 0.5 is exact in floating point). -/
def isValidLanguage : Option String → Bool
  | none => false
  | some s =>
    let cs := s.data
    if cs.isEmpty then false
    else if 30 < cs.length then false
    else if cs.any (fun c => c = '\n' || c = '\r' || c = '\t') then false
    else cs.length < 2 * letterCnt cs

/-- Membership in the JavaScript LineTerminator class, the characters that
the dot of a regular expression without the s flag does not match. -/
def isLineTerm (c : Char) : Bool :=
  c.toNat = 0xa || c.toNat = 0xd || c.toNat = 0x2028 || c.toNat = 0x2029

/-- The capture of the ordinal-prefix regular expression (anchored spaces,
digits, a period, spaces, then a non-empty dot-plus capture anchored at the
end) against a character list, or none when there is no match.  Greedy
matching with backtracking of the space star is rendered explicitly.  The
capture is contiguous, must reach the absolute end of the input (the end
anchor without the m flag), and its dot cannot match a line terminator, so:
when the space-stripped suffix after the period is non-empty the capture is
that suffix, matching exactly when it is free of line terminators (every
candidate capture contains it); when the remainder after the period is
entirely whitespace the star backtracks one character, so the capture is
the final character, matching exactly when that character is not a line
terminator. -/
def ordinalCapture (cs : List Char) : Option (List Char) :=
  let afterWs := cs.dropWhile isJsSpace
  let digits := afterWs.takeWhile Char.isDigit
  if digits.isEmpty then none
  else
    match afterWs.dropWhile Char.isDigit with
    | '.' :: rest =>
      match rest.getLast? with
      | none => none
      | some c =>
        let suffix := rest.dropWhile isJsSpace
        if suffix.isEmpty then
          if isLineTerm c then none else some [c]
        else if suffix.any isLineTerm then none
        else some suffix
    | _ => none

/-- removeProblemNumberPrefix from the content script: on a match of the
ordinal-prefix pattern return the trimmed capture, otherwise the trimmed
title.  The falsy guard returns the input unchanged; for the empty string
this coincides with trimming. -/
def removeProblemNumberPrefix (title : String) : String :=
  match ordinalCapture title.data with
  | some cap => strTrim (String.mk cap)
  | none => strTrim title

/-- mapLanguageCode from the content script: the fixed eighteen-entry
lookup table, unknown codes passing through unchanged. -/
def mapLanguageCode (langCode : String) : String :=
  if langCode = "cpp" then "C++"
  else if langCode = "python" then "Python"
  else if langCode = "python3" then "Python3"
  else if langCode = "java" then "Java"
  else if langCode = "javascript" then "JavaScript"
  else if langCode = "typescript" then "TypeScript"
  else if langCode = "c" then "C"
  else if langCode = "csharp" then "C#"
  else if langCode = "go" then "Go"
  else if langCode = "rust" then "Rust"
  else if langCode = "kotlin" then "Kotlin"
  else if langCode = "swift" then "Swift"
  else if langCode = "ruby" then "Ruby"
  else if langCode = "scala" then "Scala"
  else if langCode = "php" then "PHP"
  else if langCode = "mysql" then "MySQL"
  else if langCode = "mssql" then "MS SQL Server"
  else if langCode = "oraclesql" then "Oracle SQL"
  else langCode

/-- Scanner for the submission-id regular expression: find the first
position where the literal slash-submissions-slash is followed by at least
one digit, and capture the maximal digit run there; positions where the
literal matches but no digit follows are skipped, scanning resuming at the
next character, exactly as the regular expression engine does. -/
def subIdScan : List Char → Option (List Char)
  | [] => none
  | c :: rest =>
    if "/submissions/".data.isPrefixOf (c :: rest) then
      let ds := ((c :: rest).drop 13).takeWhile Char.isDigit
      if ds.isEmpty then subIdScan rest else some ds
    else subIdScan rest

/-- extractSubmissionId from the content script, applied to the pathname of
the current location. -/
def extractSubmissionId (pathname : String) : Option String :=
  (subIdScan pathname.data).map String.mk

/-- A ProblemRecord as persisted by the storage module. -/
structure Problem where
  id : String
  name : String
  submissionLink : String
  code : String
  language : String
  capturedAt : Nat
  order : Nat
deriving DecidableEq

instance : Inhabited Problem :=
  ⟨⟨"", "", "", "", "", 0, 0⟩⟩

/-- A copy of a record with its order field reset to zero; two records are
the same record up to re-numbering exactly when their baseOf copies are
equal. -/
def baseOf (p : Problem) : Problem :=
  { p with order := 0 }

/-- The problems field of the persisted aggregate as found in storage: a
genuine array of records, or any other value (absent, null, or otherwise
not list-shaped).  All non-array values are observationally equivalent in
the storage module: every array method invoked on them raises a TypeError
and Array.isArray rejects them. -/
inductive JsProblems where
  | arr (l : List Problem)
  | notArr
deriving DecidableEq

/-- The info object of the aggregate; absent fields and non-string fields
are modelled as none (an absent info object behaves exactly like an object
with both fields absent in every code path of the module). -/
structure InfoFields where
  title : Option String
  submittedBy : Option String
deriving DecidableEq

/-- The persisted aggregate under the fixed storage key. -/
structure JsAggregate where
  info : InfoFields
  problems : JsProblems
deriving DecidableEq

/-- The whole persisted state: none when nothing is stored under the key. -/
abbrev StoreState := Option JsAggregate

/-- The empty default aggregate assumed when the key is absent. -/
def emptyAggregate : JsAggregate :=
  ⟨⟨none, none⟩, .arr []⟩

/-- The read-with-default at the top of every storage operation. -/
def currentOf (st : StoreState) : JsAggregate :=
  st.getD emptyAggregate

/-- The problems list of a state when it is list-shaped (an absent
aggregate contributing the empty default), none when the stored problems
field is not an array. -/
def problemsArr (st : StoreState) : Option (List Problem) :=
  match (currentOf st).problems with
  | .arr l => some l
  | .notArr => none

/-- Stand-in message for the JavaScript TypeError raised when an array
method is invoked on a non-array value; the precise runtime message is not
part of the specification. -/
def jsTypeError : String := "TypeError"

/-- Truthiness-plus-trim test shared by the input validations of the
storage module: an absent or non-string field, an empty string (falsy), or
a string that is blank after trimming. -/
def falsyOrBlank : Option String → Bool
  | none => true
  | some s => (jsTrim s.data).isEmpty

/-- saveProblemSetInfo from the storage module: validates title and
submittedBy, then overwrites the info object of the current aggregate
(default when absent) with the trimmed values and writes the aggregate
back.  A validation failure is thrown before storage is touched, so an
error outcome leaves the persisted state unchanged. -/
def saveProblemSetInfo (info : Option InfoFields) (st : StoreState) :
    Except String StoreState :=
  match info with
  | none => .error "Invalid problem set info: info must be an object"
  | some i =>
    if falsyOrBlank i.title then
      .error "Invalid problem set info: title is required"
    else if falsyOrBlank i.submittedBy then
      .error "Invalid problem set info: submittedBy is required"
    else
      let cur := currentOf st
      .ok (some { cur with
        info := ⟨some (strTrim (i.title.getD "")),
                 some (strTrim (i.submittedBy.getD ""))⟩ })

/-- getProblemSetInfo from the storage module: empty-string defaults for
missing fields, never a failure on missing state. -/
def getProblemSetInfo (st : StoreState) : String × String :=
  let info := (currentOf st).info
  (info.title.getD "", info.submittedBy.getD "")

/-- The problem argument of addProblem: the four caller-supplied fields,
each possibly absent or non-string (none). -/
structure ProblemInput where
  name : Option String
  submissionLink : Option String
  code : Option String
  language : Option String
deriving DecidableEq

/-- addProblem from the storage module.  The two Date.now() calls of the
source (identifier and capture time) are modelled by the single tick
argument now.  After validation the current aggregate is read (default when
absent); pushing onto a non-array problems value raises a TypeError, which
is modelled as an error outcome with the state untouched. -/
def addProblem (problem : Option ProblemInput) (now : Nat) (st : StoreState) :
    Except String StoreState :=
  match problem with
  | none => .error "Invalid problem data: problem must be an object"
  | some p =>
    if falsyOrBlank p.name then
      .error "Invalid problem data: name is required"
    else if falsyOrBlank p.submissionLink then
      .error "Invalid problem data: submissionLink is required"
    else if falsyOrBlank p.code then
      .error "Invalid problem data: code is required"
    else if falsyOrBlank p.language then
      .error "Invalid problem data: language is required"
    else
      let cur := currentOf st
      match cur.problems with
      | .notArr => .error jsTypeError
      | .arr l =>
        let newProblem : Problem :=
          { id := toString now
            name := strTrim (p.name.getD "")
            submissionLink := strTrim (p.submissionLink.getD "")
            code := p.code.getD ""
            language := strTrim (p.language.getD "")
            capturedAt := now
            order := l.length }
        .ok (some { cur with problems := .arr (l ++ [newProblem]) })

/-- The updates argument of updateProblem: a shallow object whose present
fields win over the stored record on merge.  Only the fields of a
ProblemRecord are modelled; other keys never influence any later read. -/
structure ProblemUpdates where
  id : Option String
  name : Option String
  submissionLink : Option String
  code : Option String
  language : Option String
  capturedAt : Option Nat
  order : Option Nat
deriving DecidableEq

/-- The updates object with no field present. -/
def noUpdates : ProblemUpdates :=
  ⟨none, none, none, none, none, none, none⟩

/-- The spread merge of updateProblem: updates win on key conflict. -/
def mergeUpdates (p : Problem) (u : ProblemUpdates) : Problem :=
  { id := u.id.getD p.id
    name := u.name.getD p.name
    submissionLink := u.submissionLink.getD p.submissionLink
    code := u.code.getD p.code
    language := u.language.getD p.language
    capturedAt := u.capturedAt.getD p.capturedAt
    order := u.order.getD p.order }

/-- updateProblem from the storage module: find the first record with the
identifier, fail with not-found when there is none, otherwise replace the
record in place by the spread merge and write back. -/
def updateProblem (id : String) (u : ProblemUpdates) (st : StoreState) :
    Except String StoreState :=
  let cur := currentOf st
  match cur.problems with
  | .notArr => .error jsTypeError
  | .arr l =>
    match l.findIdx? (fun p => p.id = id) with
    | none => .error ("Problem with id " ++ id ++ " not found")
    | some idx =>
      .ok (some { cur with
        problems := .arr (l.set idx (mergeUpdates (l.getD idx default) u)) })

/-- Re-numbering of a list of records by position, as performed by the
forEach loops of deleteProblem (where the entries are pairwise distinct
objects fresh from deserialization, so there is no aliasing). -/
def renumber (l : List Problem) : List Problem :=
  l.enum.map (fun ip => { ip.2 with order := ip.1 })

/-- deleteProblem from the storage module: when no record has the
identifier, return without writing (a logged no-op); otherwise keep exactly
the records whose identifier differs (the filter drops every match) and
re-number the survivors by position. -/
def deleteProblem (id : String) (st : StoreState) : Except String StoreState :=
  let cur := currentOf st
  match cur.problems with
  | .notArr => .error jsTypeError
  | .arr l =>
    match l.findIdx? (fun p => p.id = id) with
    | none => .ok st
    | some _ =>
      .ok (some { cur with
        problems := .arr (renumber (l.filter (fun p => !(p.id = id)))) })

/-- Stable insertion used to model Array.prototype.sort under the
comparator on order fields: a record is inserted after every record with a
strictly smaller or equal order, which realizes the stable,
comparator-sorted result that the JavaScript specification mandates. -/
def jsInsert (p : Problem) : List Problem → List Problem
  | [] => [p]
  | q :: rest => if q.order < p.order then q :: jsInsert p rest else p :: q :: rest

/-- Stable sort by the order field (observationally equal to the sort call
of getAllProblems for any stable sorting algorithm). -/
def jsSortByOrder : List Problem → List Problem
  | [] => []
  | p :: rest => jsInsert p (jsSortByOrder rest)

/-- getAllProblems from the storage module: empty list when the stored
problems value is not an array (the Array.isArray guard), otherwise the
records sorted ascending by order.  The or-zero default of the comparator
is the identity here because order fields are numbers in the model. -/
def getAllProblems (st : StoreState) : List Problem :=
  match (currentOf st).problems with
  | .notArr => []
  | .arr l => jsSortByOrder l

/-- Lookup in the Map built by reorderProblems from the pairs of record
identifier and record: with duplicate identifiers the later entry
overwrites the earlier, so the lookup returns the last record bearing the
identifier. -/
def jsMapGet (l : List Problem) (i : String) : Option Problem :=
  (l.filter (fun p => p.id = i)).getLast?

/-- The greatest index of sel holding a record with identifier i (none when
absent), counted by structural recursion. -/
def lastIdxOfId (sel : List Problem) (i : String) : Option Nat :=
  match sel with
  | [] => none
  | p :: rest =>
    match lastIdxOfId rest i with
    | some j => some (j + 1)
    | none => if p.id = i then some 0 else none

/-- The order assignment of the forEach loop in reorderProblems.  The
selected entries are values of the Map, so two entries with the same
identifier are the same JavaScript object; the loop mutates each object to
its index, the last write winning.  Serializing the final list therefore
shows, at every position, the greatest index at which that identifier
occurs — which is the position itself whenever the selected identifiers are
pairwise distinct. -/
def assignOrders (sel : List Problem) : List Problem :=
  sel.map (fun p => { p with order := (lastIdxOfId sel p.id).getD 0 })

/-- reorderProblems from the storage module: reject a non-list (the model
types this away) or empty list, look every identifier up in the Map
(missing identifiers silently dropped, a count mismatch only logged),
assign order fields by the forEach loop, and replace the problems list with
the result.  On a non-array problems value the TypeError from the map call
is caught and rethrown wrapped. -/
def reorderProblems (problemIds : List String) (st : StoreState) :
    Except String StoreState :=
  if problemIds.isEmpty then
    .error "Invalid input: problemIds array is empty"
  else
    let cur := currentOf st
    match cur.problems with
    | .notArr => .error ("Failed to reorder problems: " ++ jsTypeError)
    | .arr l =>
      let reordered := problemIds.filterMap (fun i => jsMapGet l i)
      .ok (some { cur with problems := .arr (assignOrders reordered) })

/-- clearAll from the storage module: removes the aggregate entirely. -/
def clearAll (_st : StoreState) : StoreState :=
  none

/-- The nested question object of the GraphQL payload. -/
structure GraphQLQuestion where
  title : Option String
  titleSlug : Option String
deriving DecidableEq

/-- The submissionDetails object of the GraphQL payload; absent or
non-string members are none. -/
structure GraphQLSubmission where
  code : Option String
  lang : Option String
  question : Option GraphQLQuestion
deriving DecidableEq

/-- The data member of the GraphQL payload. -/
structure GraphQLData where
  submissionDetails : Option GraphQLSubmission
deriving DecidableEq

/-- The parsed JSON body of the GraphQL response.  A present errors member
is truthy whatever its contents (even an empty array), so it is an option
of the list of error message strings. -/
structure GraphQLBody where
  errors : Option (List String)
  payload : Option GraphQLData
deriving DecidableEq

/-- The outcome of the single fetch performed by the primary extractor:
either the transport failed (the fetch promise rejected with a TypeError,
the network-error case of the source), or an HTTP response with a status
and a parsed body arrived. -/
inductive ApiResponse where
  | network
  | http (status : Nat) (body : GraphQLBody)
deriving DecidableEq

/-- The validated tuple returned by fetchSubmissionFromAPI on success: the
code, language and title strings, which the guards have established to be
present and non-empty. -/
structure ApiData where
  code : String
  lang : String
  title : String
deriving DecidableEq

/-- Falsiness of an optional string member: absent, or the empty string. -/
def falsyStr : Option String → Bool
  | none => true
  | some s => s.isEmpty

/-- The body of the try block of fetchSubmissionFromAPI: status mapping for
non-2xx responses (the ok property is exactly status 200 to 299), then the
error payload, the missing-result, and the missing-field guards, in source
order. -/
def fetchInner (status : Nat) (body : GraphQLBody) : Except String ApiData :=
  if !(200 ≤ status && status ≤ 299) then
    if status = 401 || status = 403 then
      .error "Authentication failed. Please make sure you are logged into LeetCode."
    else if status = 404 then
      .error "Submission not found. Please check the submission URL."
    else if status = 429 then
      .error "Too many requests. Please wait a moment and try again."
    else if 500 ≤ status then
      .error "LeetCode server error. Please try again later."
    else
      .error ("API request failed with status " ++ toString status)
  else
    match body.errors with
    | some msgs => .error ("LeetCode API error: " ++ String.intercalate ", " msgs)
    | none =>
      match body.payload with
      | none =>
        .error "No submission details found. The submission may not exist or you may not have access to it."
      | some d =>
        match d.submissionDetails with
        | none =>
          .error "No submission details found. The submission may not exist or you may not have access to it."
        | some sub =>
          if falsyStr sub.code then
            .error "Submission code is empty or unavailable."
          else
            match sub.question with
            | none => .error "Problem title is unavailable."
            | some q =>
              if falsyStr q.title then
                .error "Problem title is unavailable."
              else if falsyStr sub.lang then
                .error "Programming language information is unavailable."
              else
                .ok ⟨sub.code.getD "", sub.lang.getD "", q.title.getD ""⟩

/-- The keyword test of the catch block of fetchSubmissionFromAPI, deciding
whether a thrown message is one of the custom errors to rethrow as is. -/
def keywordSafe (m : String) : Bool :=
  strContains m "Authentication" || strContains m "not found" ||
  strContains m "Too many" || strContains m "server error" ||
  strContains m "API error" || strContains m "empty" ||
  strContains m "unavailable"

/-- fetchSubmissionFromAPI from the content script: the network case maps
to the network-error message (a TypeError from fetch carries no keyword);
an HTTP response runs the try block, and a thrown message without a
keyword — notably the generic status message and the missing-details
message — is rethrown wrapped by the catch block. -/
def fetchSubmissionFromAPI (resp : ApiResponse) : Except String ApiData :=
  match resp with
  | .network => .error "Network error. Please check your internet connection."
  | .http status body =>
    match fetchInner status body with
    | .ok d => .ok d
    | .error m =>
      .error (if keywordSafe m then m else "Failed to fetch submission data: " ++ m)

/-- The result of the fallback DOM extraction when it succeeds: problem
name, code and language as scraped from the page.  The DOM scan itself
(selector lists over a live page) is an external input to the orchestrator
and is modelled by its outcome. -/
structure DomData where
  name : String
  code : String
  language : String
deriving DecidableEq

/-- The record assembled by the extraction orchestrator. -/
structure ExtractedRecord where
  name : String
  code : String
  language : String
  submissionLink : String
deriving DecidableEq

/-- The message thrown by the orchestrator when the primary payload fails
validation. -/
def corruptedMsg : String :=
  "API returned corrupted data (code or language appears invalid)"

/-- The primary stage of the orchestrator: the fetch outcome, then the
validators applied to the code and the language, a validation failure
raising the corrupted-data error that the catch absorbs. -/
def apiOutcome (resp : ApiResponse) : Except String ApiData :=
  match fetchSubmissionFromAPI resp with
  | .error e => .error e
  | .ok d =>
    if isValidCode (some d.code) && isValidLanguage (some d.lang) then .ok d
    else .error corruptedMsg

/-- The fixed canonical path template for the submission link, instantiated
with the submission identifier in both success branches. -/
def formatLink (sid : String) : String :=
  "/submissions/detail/" ++ sid ++ "/"

/-- The combined terminal failure message when both stages fail. -/
def combineFailure (apiErr domErr : String) : String :=
  "Failed to capture problem data.\n\nAPI Error: " ++ apiErr ++
  "\n\nDOM Error: " ++ domErr ++
  "\n\nPlease try refreshing the page or add the problem manually."

/-- extractProblemData from the content script: parse the submission
identifier from the pathname (terminal failure when absent); run the
primary stage and on success assemble the record with normalized title,
mapped language and canonical link; on any primary failure run the
fallback, assembling the record the same way on its success; when both
fail, raise the combined message. -/
def extractProblemData (pathname : String) (resp : ApiResponse)
    (dom : Except String DomData) : Except String ExtractedRecord :=
  match extractSubmissionId pathname with
  | none =>
    .error "Could not extract submission ID from URL. Please make sure you are on a submission detail page."
  | some sid =>
    match apiOutcome resp with
    | .ok d =>
      .ok ⟨removeProblemNumberPrefix d.title, d.code,
           mapLanguageCode d.lang, formatLink sid⟩
    | .error apiErr =>
      match dom with
      | .ok dd =>
        .ok ⟨removeProblemNumberPrefix dd.name, dd.code, dd.language,
             formatLink sid⟩
      | .error domErr => .error (combineFailure apiErr domErr)

/-- One mutating call against the ordered store, with the inputs the caller
supplies (the tick of the add operation standing for the Date.now calls). -/
inductive StoreOp where
  | add (problem : Option ProblemInput) (now : Nat)
  | update (id : String) (u : ProblemUpdates)
  | del (id : String)
  | reorder (ids : List String)
deriving DecidableEq

/-- Run one mutating operation against the persisted state. -/
def runOp : StoreOp → StoreState → Except String StoreState
  | .add p now, st => addProblem p now st
  | .update id u, st => updateProblem id u st
  | .del id, st => deleteProblem id st
  | .reorder ids, st => reorderProblems ids st

/-- The persisted state after one operation: a thrown operation performs no
write, so the state is unchanged on an error outcome. -/
def applyOp (op : StoreOp) (st : StoreState) : StoreState :=
  match runOp op st with
  | .ok st2 => st2
  | .error _ => st

/-- The persisted state after a sequence of operations. -/
def applyOps (ops : List StoreOp) (st : StoreState) : StoreState :=
  ops.foldl (fun s o => applyOp o s) st

/-- The operations whose calls keep to the documented interface: an updates
object never carries an order field of its own, and a reorder request never
repeats an identifier. -/
def GoodOp : StoreOp → Prop
  | .update _ u => u.order = none
  | .reorder ids => ids.Nodup
  | _ => True

instance : DecidablePred GoodOp := by
  intro o
  cases o <;> · unfold GoodOp; infer_instance

/-- Density of the order fields: position i carries order i, stated as the
map of order fields being the range of the length. -/
def ordersDense (l : List Problem) : Prop :=
  l.map (fun p => p.order) = List.range l.length

/-- Failure of the input validation of saveProblemSetInfo: the argument is
absent or not an object, or the title or the submittedBy field is absent,
non-textual, or blank after trimming. -/
def invalidInfo : Option InfoFields → Prop
  | none => True
  | some i => falsyOrBlank i.title = true ∨ falsyOrBlank i.submittedBy = true

instance : DecidablePred invalidInfo := by
  intro info
  cases info <;> · unfold invalidInfo; infer_instance

/-- The observable content of an operation outcome: error message, or the
resulting state observed through the two read operations (info view and
ordered problems view). -/
def obsOutcome (r : Except String StoreState) :
    Except String ((String × String) × List Problem) :=
  r.map (fun st => (getProblemSetInfo st, getAllProblems st))

/-- A state whose problems field is list-shaped with dense order fields:
the invariant maintained by the mutating operations. -/
def GoodState (st : StoreState) : Prop :=
  ∃ l, problemsArr st = some l ∧ ordersDense l

theorem renumber_length (l : List Problem) : (renumber l).length = l.length := by
  simp [renumber, List.enum_length]

theorem renumber_map_order (l : List Problem) :
    (renumber l).map (fun p => p.order) = List.range l.length := by
  unfold renumber
  rw [List.map_map]
  have h : ((fun p : Problem => p.order) ∘ fun ip : Nat × Problem =>
      { ip.2 with order := ip.1 }) = Prod.fst := funext fun ip => rfl
  rw [h, List.enum_map_fst]

theorem renumber_ordersDense (l : List Problem) : ordersDense (renumber l) := by
  unfold ordersDense
  rw [renumber_map_order, renumber_length]

theorem renumber_map_base (l : List Problem) :
    (renumber l).map baseOf = l.map baseOf := by
  apply List.ext_getElem
  · simp [renumber, List.enum_length]
  · intro n h1 h2
    simp only [renumber, List.getElem_map, List.getElem_enum, baseOf]

theorem renumber_map_id (l : List Problem) :
    (renumber l).map (fun p => p.id) = l.map (fun p => p.id) := by
  apply List.ext_getElem
  · simp [renumber, List.enum_length]
  · intro n h1 h2
    simp only [renumber, List.getElem_map, List.getElem_enum]

theorem jsInsert_of_lt (p : Problem) (l : List Problem)
    (h : ∀ q ∈ l, p.order < q.order) : jsInsert p l = p :: l := by
  cases l with
  | nil => rfl
  | cons q rest =>
    have hq : ¬ q.order < p.order :=
      Nat.lt_asymm (h q (List.mem_cons_self q rest))
    simp [jsInsert, hq]

theorem jsSortByOrder_of_pairwise (l : List Problem)
    (h : List.Pairwise (fun a b => a.order < b.order) l) : jsSortByOrder l = l := by
  induction l with
  | nil => rfl
  | cons p rest ih =>
    rw [List.pairwise_cons] at h
    rw [jsSortByOrder, ih h.2, jsInsert_of_lt p rest h.1]

theorem ordersDense_pairwise (l : List Problem) (h : ordersDense l) :
    List.Pairwise (fun a b => a.order < b.order) l := by
  have hr := List.pairwise_lt_range l.length
  rw [← h] at hr
  exact List.pairwise_map.mp hr

theorem jsSortByOrder_of_dense (l : List Problem) (h : ordersDense l) :
    jsSortByOrder l = l :=
  jsSortByOrder_of_pairwise l (ordersDense_pairwise l h)

theorem getAllProblems_of_dense (st : StoreState) (l : List Problem)
    (h1 : problemsArr st = some l) (h2 : ordersDense l) :
    getAllProblems st = l := by
  unfold problemsArr at h1
  unfold getAllProblems
  cases hp : (currentOf st).problems with
  | arr l2 =>
    rw [hp] at h1
    cases h1
    exact jsSortByOrder_of_dense l h2
  | notArr => rw [hp] at h1; cases h1

/-- C6: isValidCode returns false for an absent or non-textual value and
for text shorter than ten trimmed characters, and otherwise returns true
exactly when some pattern of the fixed code-shape set matches and the
ASCII-letter count is at least a fifth of the length; in particular it is
false on the one-character text x and true on the function-foo example. -/
theorem isValidCode_spec (c : Option String) :
    (c = none → isValidCode c = false) ∧
    (∀ s, c = some s → (jsTrim s.data).length < 10 → isValidCode c = false) ∧
    (∀ s, c = some s → 10 ≤ (jsTrim s.data).length →
      isValidCode c =
        (hasCodePattern s.data && decide (s.data.length ≤ 5 * letterCnt s.data))) ∧
    isValidCode (some "x") = false ∧
    isValidCode (some "function foo() \x7b return 1; \x7d") = true := by
  refine ⟨fun h => by rw [h]; rfl, fun s hs hlt => ?_, fun s hs hge => ?_,
    by decide, by decide⟩
  · subst hs
    simp only [isValidCode]
    rw [if_pos hlt]
  · subst hs
    simp only [isValidCode]
    rw [if_neg (by omega)]
    by_cases h5 : 5 * letterCnt s.data < s.data.length
    · rw [if_pos h5]
      have hdec : decide (s.data.length ≤ 5 * letterCnt s.data) = false := by
        simp only [decide_eq_false_iff_not]
        omega
      rw [hdec, Bool.and_false]
    · rw [if_neg h5]
      have hdec : decide (s.data.length ≤ 5 * letterCnt s.data) = true := by
        simp only [decide_eq_true_eq]
        omega
      rw [hdec, Bool.and_true]

theorem isValidCode_spec_witness :
    isValidCode (some "x") = false ∧
    isValidCode (some "function foo() \x7b return 1; \x7d") = true :=
  ⟨(isValidCode_spec (some "x")).2.1 "x" rfl (by decide),
   (isValidCode_spec (some "function foo() \x7b return 1; \x7d")).2.2.2.2⟩

/-- C3: whenever the primary stage fails — any mapped non-2xx status
(including 401), error payload, missing field, network error, or a 2xx
payload rejected by the code or language validator — the orchestrator
outcome is entirely determined by the fallback stage (its success becomes
the orchestrator success, its failure the combined failure), and the
primary failure message is never the outcome by itself. -/
theorem primary_failure_falls_back (pathname sid e : String) (resp : ApiResponse)
    (dom : Except String DomData)
    (hsid : extractSubmissionId pathname = some sid)
    (hfail : apiOutcome resp = .error e) :
    extractProblemData pathname resp dom =
      (match dom with
       | .ok dd => .ok ⟨removeProblemNumberPrefix dd.name, dd.code, dd.language,
           formatLink sid⟩
       | .error domErr => .error (combineFailure e domErr)) ∧
    extractProblemData pathname resp dom ≠ .error e := by
  constructor
  · simp only [extractProblemData, hsid, hfail]
  · simp only [extractProblemData, hsid, hfail]
    cases dom with
    | ok dd => simp
    | error de =>
      simp only [ne_eq, Except.error.injEq]
      intro h
      have hd := congrArg String.length h
      simp only [combineFailure, String.length_append] at hd
      have hpos : 0 < ("Failed to capture problem data.\n\nAPI Error: " : String).length := by
        decide
      omega

theorem primary_failure_falls_back_witness :
    extractProblemData "/problems/two-sum/submissions/123/"
      (.http 401 ⟨none, none⟩)
      (.ok ⟨"1. Two Sum", "function foo() \x7b return 1; \x7d", "cpp"⟩)
    = .ok ⟨"Two Sum", "function foo() \x7b return 1; \x7d", "cpp",
        "/submissions/detail/123/"⟩ := by
  have h := (primary_failure_falls_back "/problems/two-sum/submissions/123/" "123"
    "Authentication failed. Please make sure you are logged into LeetCode."
    (.http 401 ⟨none, none⟩)
    (.ok ⟨"1. Two Sum", "function foo() \x7b return 1; \x7d", "cpp"⟩)
    (by decide) rfl).1
  rw [h]
  rfl

/-- C4: when the primary and the fallback stage both fail, the terminal
message embeds both failure reasons verbatim, each occurring as a
contiguous substring. -/
theorem combined_failure_contains_both (pathname sid ae de : String)
    (resp : ApiResponse) (dom : Except String DomData)
    (hsid : extractSubmissionId pathname = some sid)
    (ha : apiOutcome resp = .error ae) (hd : dom = .error de) :
    ∃ m, extractProblemData pathname resp dom = .error m ∧
      (∃ p q, m.data = p ++ ae.data ++ q) ∧
      (∃ p q, m.data = p ++ de.data ++ q) := by
  refine ⟨combineFailure ae de, ?_, ?_, ?_⟩
  · simp only [extractProblemData, hsid, ha, hd]
  · refine ⟨"Failed to capture problem data.\n\nAPI Error: ".data,
      ("\n\nDOM Error: " ++ de ++
        "\n\nPlease try refreshing the page or add the problem manually.").data, ?_⟩
    simp [combineFailure, String.data_append, List.append_assoc]
  · refine ⟨("Failed to capture problem data.\n\nAPI Error: " ++ ae ++
        "\n\nDOM Error: ").data,
      "\n\nPlease try refreshing the page or add the problem manually.".data, ?_⟩
    simp [combineFailure, String.data_append, List.append_assoc]

theorem combined_failure_contains_both_witness :
    ∃ m, extractProblemData "/problems/two-sum/submissions/55/"
        ApiResponse.network (.error "DOM broke") = .error m ∧
      (∃ p q, m.data = p ++
        "Network error. Please check your internet connection.".data ++ q) ∧
      (∃ p q, m.data = p ++ "DOM broke".data ++ q) :=
  combined_failure_contains_both "/problems/two-sum/submissions/55/" "55"
    "Network error. Please check your internet connection." "DOM broke"
    ApiResponse.network (.error "DOM broke") (by decide) rfl rfl

/-- C9: every successful extraction, through either branch, carries a
submission link equal to the fixed canonical path template instantiated
with the identifier parsed from the location; both success branches
compose the link through the same formatLink template, so it never echoes
the current path of the page. -/
theorem submission_link_canonical (pathname : String) (resp : ApiResponse)
    (dom : Except String DomData) (r : ExtractedRecord)
    (h : extractProblemData pathname resp dom = .ok r) :
    ∃ sid, extractSubmissionId pathname = some sid ∧
      r.submissionLink = "/submissions/detail/" ++ sid ++ "/" := by
  unfold extractProblemData at h
  cases hs : extractSubmissionId pathname with
  | none =>
    rw [hs] at h
    exact absurd h (by simp)
  | some sid =>
    rw [hs] at h
    refine ⟨sid, rfl, ?_⟩
    cases ha : apiOutcome resp with
    | ok d =>
      rw [ha] at h
      cases h
      rfl
    | error e =>
      rw [ha] at h
      cases dom with
      | ok dd =>
        cases h
        rfl
      | error de => exact absurd h (by simp)

theorem submission_link_canonical_witness :
    ∃ sid, extractSubmissionId "/problems/two-sum/submissions/999/" = some sid ∧
      (⟨"Two Sum", "#include <iostream>\nint main() \x7b return 0; \x7d", "C++",
        "/submissions/detail/999/"⟩ : ExtractedRecord).submissionLink
        = "/submissions/detail/" ++ sid ++ "/" :=
  submission_link_canonical "/problems/two-sum/submissions/999/"
    (.http 200 ⟨none, some ⟨some ⟨some "#include <iostream>\nint main() \x7b return 0; \x7d",
      some "cpp", some ⟨some "1. Two Sum", some "two-sum"⟩⟩⟩⟩)
    (.error "unused")
    ⟨"Two Sum", "#include <iostream>\nint main() \x7b return 0; \x7d", "C++",
      "/submissions/detail/999/"⟩
    rfl

/-- C7: saveProblemSetInfo fails with an invalid-input error whenever the
title or the submittedBy field is absent, non-textual, or blank after
trimming (the error is thrown before any storage access, so the persisted
aggregate is untouched, which the state-passing model renders by the error
outcome carrying no state); on valid input the info object is overwritten
entirely with the trimmed values while the problems list is unchanged. -/
theorem saveProblemSetInfo_spec (info : Option InfoFields) (st : StoreState) :
    (invalidInfo info → ∃ e, saveProblemSetInfo info st = .error e) ∧
    (∀ i t sb, info = some i → i.title = some t → i.submittedBy = some sb →
      (jsTrim t.data).isEmpty = false → (jsTrim sb.data).isEmpty = false →
      ∃ st2, saveProblemSetInfo info st = .ok st2 ∧
        getProblemSetInfo st2 = (strTrim t, strTrim sb) ∧
        problemsArr st2 = problemsArr st) := by
  constructor
  · intro hbad
    cases info with
    | none => exact ⟨_, rfl⟩
    | some i =>
      unfold invalidInfo at hbad
      by_cases ht : falsyOrBlank i.title = true
      · exact ⟨"Invalid problem set info: title is required",
          by simp only [saveProblemSetInfo]; rw [if_pos ht]⟩
      · have hsb : falsyOrBlank i.submittedBy = true := by
          rcases hbad with h | h
          · exact absurd h ht
          · exact h
        exact ⟨"Invalid problem set info: submittedBy is required",
          by simp only [saveProblemSetInfo]; rw [if_neg ht, if_pos hsb]⟩
  · intro i t sb hi hti hsbi ht hsb
    subst hi
    have ht2 : falsyOrBlank i.title = false := by rw [hti]; exact ht
    have hsb2 : falsyOrBlank i.submittedBy = false := by rw [hsbi]; exact hsb
    refine ⟨some { currentOf st with
      info := ⟨some (strTrim t), some (strTrim sb)⟩ }, ?_, ?_, ?_⟩
    · simp [saveProblemSetInfo, hti, hsbi, falsyOrBlank, ht, hsb]
    · simp [getProblemSetInfo, currentOf]
    · simp [problemsArr, currentOf]

theorem saveProblemSetInfo_spec_witness :
    ∃ e, saveProblemSetInfo (some ⟨some "", some "Alice"⟩) none = .error e :=
  (saveProblemSetInfo_spec (some ⟨some "", some "Alice"⟩) none).1
    (Or.inl (by decide))

/-- C8: deleting an identifier that no record carries is a benign no-op
(success outcome, state unchanged, nothing written); deleting one that is
present removes it and re-numbers every surviving record to its new index,
preserving the relative sequence of the survivors. -/
theorem deleteProblem_spec (id : String) (st : StoreState) (l : List Problem)
    (hl : problemsArr st = some l) :
    ((∀ p ∈ l, p.id ≠ id) → deleteProblem id st = .ok st) ∧
    ((∃ p ∈ l, p.id = id) →
      ∃ st2, deleteProblem id st = .ok st2 ∧
        ∃ l2, problemsArr st2 = some l2 ∧
          l2.map baseOf = (l.filter (fun p => !(p.id = id))).map baseOf ∧
          l2.map (fun p => p.order) = List.range l2.length) := by
  unfold problemsArr at hl
  cases hp : (currentOf st).problems with
  | notArr => rw [hp] at hl; cases hl
  | arr l0 =>
    rw [hp] at hl
    injection hl with hl
    subst hl
    constructor
    · intro hnone
      have hfi : l0.findIdx? (fun p => p.id = id) = none := by
        rw [List.findIdx?_eq_none_iff]
        intro p hp2
        simp only [decide_eq_false_iff_not]
        exact hnone p hp2
      unfold deleteProblem
      simp only [hp, hfi]
    · intro hex
      obtain ⟨p, hmem, hid⟩ := hex
      have hfi := @List.findIdx?_eq_some_of_exists _ l0
        (fun p => decide (p.id = id)) ⟨p, hmem, by simp [hid]⟩
      unfold deleteProblem
      simp only [hp, hfi]
      refine ⟨_, rfl, _, by simp [problemsArr, currentOf], renumber_map_base _, ?_⟩
      have hd := renumber_ordersDense (l0.filter (fun p => !(p.id = id)))
      unfold ordersDense at hd
      exact hd

theorem deleteProblem_spec_witness :
    ∃ st2, deleteProblem "2" (some ⟨⟨none, none⟩, .arr
        [⟨"1", "a", "la", "ca", "xa", 10, 0⟩,
         ⟨"2", "b", "lb", "cb", "xb", 11, 1⟩,
         ⟨"3", "d", "ld", "cd", "xd", 12, 2⟩]⟩) = .ok st2 ∧
      ∃ l2, problemsArr st2 = some l2 ∧
        l2.map baseOf = ([⟨"1", "a", "la", "ca", "xa", 10, 0⟩,
           ⟨"2", "b", "lb", "cb", "xb", 11, 1⟩,
           ⟨"3", "d", "ld", "cd", "xd", 12, 2⟩].filter
             (fun p => !(p.id = "2"))).map baseOf ∧
        l2.map (fun p => p.order) = List.range l2.length :=
  (deleteProblem_spec "2" (some ⟨⟨none, none⟩, .arr
      [⟨"1", "a", "la", "ca", "xa", 10, 0⟩,
       ⟨"2", "b", "lb", "cb", "xb", 11, 1⟩,
       ⟨"3", "d", "ld", "cd", "xd", 12, 2⟩]⟩)
    [⟨"1", "a", "la", "ca", "xa", 10, 0⟩,
     ⟨"2", "b", "lb", "cb", "xb", 11, 1⟩,
     ⟨"3", "d", "ld", "cd", "xd", 12, 2⟩] rfl).2
    ⟨⟨"2", "b", "lb", "cb", "xb", 11, 1⟩, by decide, rfl⟩

/-- C10: on an aggregate whose list carries several records with the same
identifier (reachable, because identifiers come from the creation
timestamp), deleteProblem removes every record whose identifier equals the
argument — the filter drops all matches, not only the first — before the
survivors are re-numbered. -/
theorem deleteProblem_removes_all (id : String) (st : StoreState)
    (l : List Problem) (hl : problemsArr st = some l)
    (hmem : ∃ p ∈ l, p.id = id) :
    ∃ st2, deleteProblem id st = .ok st2 ∧
      ∃ l2, problemsArr st2 = some l2 ∧
        (∀ p ∈ l2, p.id ≠ id) ∧
        l2.map baseOf = (l.filter (fun p => !(p.id = id))).map baseOf := by
  unfold problemsArr at hl
  cases hp : (currentOf st).problems with
  | notArr => rw [hp] at hl; cases hl
  | arr l0 =>
    rw [hp] at hl
    injection hl with hl
    subst hl
    obtain ⟨p, hpm, hid⟩ := hmem
    have hfi := @List.findIdx?_eq_some_of_exists _ l0
      (fun p => decide (p.id = id)) ⟨p, hpm, by simp [hid]⟩
    unfold deleteProblem
    simp only [hp, hfi]
    refine ⟨_, rfl, _, by simp [problemsArr, currentOf], ?_, renumber_map_base _⟩
    intro q hq
    have hqid : q.id ∈ (renumber (l0.filter (fun p => !(p.id = id)))).map
        (fun p => p.id) := List.mem_map_of_mem _ hq
    rw [renumber_map_id] at hqid
    obtain ⟨w, hw, hwid⟩ := List.mem_map.mp hqid
    have hflt := (List.mem_filter.mp hw).2
    simp only [Bool.not_eq_true', decide_eq_false_iff_not] at hflt
    rw [← hwid]
    exact hflt

theorem deleteProblem_removes_all_witness :
    ∃ st2, deleteProblem "9" (some ⟨⟨none, none⟩, .arr
        [⟨"9", "a", "la", "ca", "xa", 20, 0⟩,
         ⟨"8", "b", "lb", "cb", "xb", 21, 1⟩,
         ⟨"9", "d", "ld", "cd", "xd", 22, 2⟩]⟩) = .ok st2 ∧
      ∃ l2, problemsArr st2 = some l2 ∧
        (∀ p ∈ l2, p.id ≠ "9") ∧
        l2.map baseOf = ([⟨"9", "a", "la", "ca", "xa", 20, 0⟩,
           ⟨"8", "b", "lb", "cb", "xb", 21, 1⟩,
           ⟨"9", "d", "ld", "cd", "xd", 22, 2⟩].filter
             (fun p => !(p.id = "9"))).map baseOf :=
  deleteProblem_removes_all "9" (some ⟨⟨none, none⟩, .arr
      [⟨"9", "a", "la", "ca", "xa", 20, 0⟩,
       ⟨"8", "b", "lb", "cb", "xb", 21, 1⟩,
       ⟨"9", "d", "ld", "cd", "xd", 22, 2⟩]⟩)
    [⟨"9", "a", "la", "ca", "xa", 20, 0⟩,
     ⟨"8", "b", "lb", "cb", "xb", 21, 1⟩,
     ⟨"9", "d", "ld", "cd", "xd", 22, 2⟩] rfl
    ⟨⟨"9", "a", "la", "ca", "xa", 20, 0⟩, by decide, rfl⟩

theorem filterById_nil (l : List Problem) (i : String)
    (h : i ∉ l.map (fun p => p.id)) : l.filter (fun p => p.id = i) = [] := by
  rw [List.filter_eq_nil_iff]
  intro p hp
  simp only [decide_eq_true_eq]
  intro hpi
  exact h (by rw [← hpi]; exact List.mem_map_of_mem _ hp)

theorem jsMapGet_mem (l : List Problem) (i : String) (p : Problem)
    (h : jsMapGet l i = some p) : p ∈ l ∧ p.id = i := by
  unfold jsMapGet at h
  rw [List.getLast?_eq_some_iff] at h
  obtain ⟨ys, hys⟩ := h
  have hpmem : p ∈ l.filter (fun p => p.id = i) := by
    rw [hys]
    exact List.mem_append_right _ (List.mem_singleton_self p)
  have hm := List.mem_filter.mp hpmem
  exact ⟨hm.1, by simpa using hm.2⟩

theorem jsMapGet_eq_find (l : List Problem) (i : String)
    (hnd : (l.map (fun p => p.id)).Nodup) :
    jsMapGet l i = l.find? (fun p => p.id = i) := by
  induction l with
  | nil => rfl
  | cons p rest ih =>
    rw [List.map_cons, List.nodup_cons] at hnd
    by_cases hpi : p.id = i
    · have hrest : rest.filter (fun q => q.id = i) = [] := by
        apply filterById_nil
        rw [← hpi]
        exact hnd.1
      unfold jsMapGet
      rw [List.filter_cons_of_pos (by simp [hpi]), hrest,
        List.find?_cons_of_pos _ (by simp [hpi])]
      rfl
    · unfold jsMapGet
      rw [List.filter_cons_of_neg (by simp [hpi]),
        List.find?_cons_of_neg _ (by simp [hpi])]
      exact ih hnd.2

theorem selected_ids_nodup (ids : List String) (l : List Problem)
    (hnd : ids.Nodup) :
    ((ids.filterMap (fun i => jsMapGet l i)).map (fun p => p.id)).Nodup := by
  induction ids with
  | nil => simp
  | cons i rest ih =>
    rw [List.nodup_cons] at hnd
    cases hj : jsMapGet l i with
    | none => simpa only [List.filterMap_cons, hj] using ih hnd.2
    | some p =>
      simp only [List.filterMap_cons, hj, List.map_cons, List.nodup_cons]
      refine ⟨?_, ih hnd.2⟩
      intro hmem
      obtain ⟨q, hq, hqid⟩ := List.mem_map.mp hmem
      obtain ⟨j, hjrest, hfj⟩ := List.mem_filterMap.mp hq
      have hqj := (jsMapGet_mem l j q hfj).2
      have hpi := (jsMapGet_mem l i p hj).2
      apply hnd.1
      rw [← hqj, hqid, hpi] at hjrest
      exact hjrest

theorem lastIdxOfId_eq_none (sel : List Problem) (i : String)
    (h : i ∉ sel.map (fun p => p.id)) : lastIdxOfId sel i = none := by
  induction sel with
  | nil => rfl
  | cons p rest ih =>
    rw [List.map_cons, List.mem_cons] at h
    push_neg at h
    unfold lastIdxOfId
    rw [ih h.2, if_neg (fun h2 => h.1 h2.symm)]

theorem lastIdxOfId_getElem (sel : List Problem)
    (hnd : (sel.map (fun p => p.id)).Nodup) :
    ∀ (k : Nat) (hk : k < sel.length), lastIdxOfId sel sel[k].id = some k := by
  induction sel with
  | nil => intro k hk; exact absurd hk (Nat.not_lt_zero k)
  | cons p rest ih =>
    rw [List.map_cons, List.nodup_cons] at hnd
    intro k hk
    cases k with
    | zero =>
      rw [List.getElem_cons_zero]
      unfold lastIdxOfId
      rw [lastIdxOfId_eq_none rest p.id hnd.1, if_pos rfl]
    | succ k2 =>
      rw [List.getElem_cons_succ]
      unfold lastIdxOfId
      rw [ih hnd.2 k2 (by simpa using hk)]

theorem assignOrders_length (sel : List Problem) :
    (assignOrders sel).length = sel.length := by
  simp [assignOrders]

theorem assignOrders_of_nodup (sel : List Problem)
    (hnd : (sel.map (fun p => p.id)).Nodup) :
    assignOrders sel = renumber sel := by
  apply List.ext_getElem
  · simp [assignOrders, renumber, List.enum_length]
  · intro k h1 h2
    have hk : k < sel.length := by simpa [assignOrders] using h1
    simp only [assignOrders, List.getElem_map, renumber, List.getElem_enum]
    rw [lastIdxOfId_getElem sel hnd k hk]
    rfl

theorem assignOrders_map_base (sel : List Problem) :
    (assignOrders sel).map baseOf = sel.map baseOf := by
  unfold assignOrders
  rw [List.map_map]
  rfl

theorem assignOrders_map_id (sel : List Problem) :
    (assignOrders sel).map (fun p => p.id) = sel.map (fun p => p.id) := by
  unfold assignOrders
  rw [List.map_map]
  rfl

theorem selected_map_id (ids : List String) (l : List Problem)
    (hndl : (l.map (fun p => p.id)).Nodup)
    (hall : ∀ i ∈ ids, i ∈ l.map (fun p => p.id)) :
    (ids.filterMap (fun i => jsMapGet l i)).map (fun p => p.id) = ids := by
  induction ids with
  | nil => rfl
  | cons i rest ih =>
    have hi := hall i (List.mem_cons_self i rest)
    have hsome : ∃ p, l.find? (fun p => p.id = i) = some p := by
      rw [← Option.isSome_iff_exists, List.find?_isSome]
      obtain ⟨q, hq, hqi⟩ := List.mem_map.mp hi
      exact ⟨q, hq, by simp [hqi]⟩
    obtain ⟨p, hp⟩ := hsome
    have hj : jsMapGet l i = some p := by rw [jsMapGet_eq_find l i hndl]; exact hp
    simp only [List.filterMap_cons, hj, List.map_cons]
    rw [ih (fun j hjr => hall j (List.mem_cons_of_mem i hjr))]
    have hpi : p.id = i := by
      have := List.find?_some hp
      simpa using this
    rw [hpi]

theorem selected_perm (ids : List String) (l : List Problem)
    (hndl : (l.map (fun p => p.id)).Nodup) (hnd : ids.Nodup)
    (hperm : ids.Perm (l.map (fun p => p.id))) :
    (ids.filterMap (fun i => jsMapGet l i)).Perm l := by
  have hsub : (ids.filterMap (fun i => jsMapGet l i)) ⊆ l := by
    intro q hq
    obtain ⟨j, _, hfj⟩ := List.mem_filterMap.mp hq
    exact (jsMapGet_mem l j q hfj).1
  have hselnd : (ids.filterMap (fun i => jsMapGet l i)).Nodup :=
    List.Nodup.of_map _ (selected_ids_nodup ids l hnd)
  have hmapid := selected_map_id ids l hndl (fun i hi => hperm.mem_iff.mp hi)
  have hlen : l.length ≤ (ids.filterMap (fun i => jsMapGet l i)).length := by
    have h1 : (ids.filterMap (fun i => jsMapGet l i)).length = ids.length := by
      have hc := congrArg List.length hmapid
      simpa using hc
    have h2 : ids.length = l.length := by
      rw [hperm.length_eq, List.length_map]
    omega
  exact (List.subperm_of_subset hselnd hsub).perm_of_length_le hlen

/-- C2 (amended): when the current records carry pairwise distinct
identifiers and the request repeats no identifier, reorderProblems replaces
the problems list with exactly the records whose identifier appears in the
request, in the requested order, each order field set to its position;
when the request is a permutation of all current identifiers the records
are unchanged up to their order fields; a record whose identifier was
omitted is absent afterwards.  (As literally stated over every aggregate
the claim fails: with duplicate identifiers the Map keeps only the last
record per identifier, see the counterexample.) -/
theorem reorderProblems_spec (ids : List String) (st : StoreState)
    (l : List Problem) (hl : problemsArr st = some l) (hne : ids ≠ [])
    (hndl : (l.map (fun p => p.id)).Nodup) (hnd : ids.Nodup) :
    ∃ st2, reorderProblems ids st = .ok st2 ∧
      ∃ l2, problemsArr st2 = some l2 ∧
        l2 = renumber (ids.filterMap (fun i => l.find? (fun p => p.id = i))) ∧
        l2.map (fun p => p.order) = List.range l2.length ∧
        (ids.Perm (l.map (fun p => p.id)) →
          (l2.map baseOf).Perm (l.map baseOf)) ∧
        (∀ q ∈ l, q.id ∉ ids → ∀ p ∈ l2, p.id ≠ q.id) := by
  unfold problemsArr at hl
  cases hp : (currentOf st).problems with
  | notArr => rw [hp] at hl; cases hl
  | arr l0 =>
    rw [hp] at hl
    injection hl with hl
    subst hl
    have hfind : (fun i => jsMapGet l0 i) =
        (fun i => l0.find? (fun p => p.id = i)) :=
      funext fun i => jsMapGet_eq_find l0 i hndl
    unfold reorderProblems
    rw [if_neg (by simpa [List.isEmpty_iff] using hne)]
    simp only [hp]
    refine ⟨_, rfl, assignOrders (ids.filterMap (fun i => jsMapGet l0 i)),
      by simp [problemsArr, currentOf], ?_, ?_, ?_, ?_⟩
    · rw [assignOrders_of_nodup _ (selected_ids_nodup ids l0 hnd), hfind]
    · rw [assignOrders_of_nodup _ (selected_ids_nodup ids l0 hnd),
        renumber_map_order, renumber_length]
    · intro hperm
      rw [assignOrders_map_base]
      exact (selected_perm ids l0 hndl hnd hperm).map baseOf
    · intro q hq hqnot p hp2
      intro hpq
      have hpid : p.id ∈ (assignOrders
          (ids.filterMap (fun i => jsMapGet l0 i))).map (fun p => p.id) :=
        List.mem_map_of_mem _ hp2
      rw [assignOrders_map_id] at hpid
      obtain ⟨w, hw, hwid⟩ := List.mem_map.mp hpid
      obtain ⟨j, hjmem, hfj⟩ := List.mem_filterMap.mp hw
      have hwj := (jsMapGet_mem l0 j w hfj).2
      apply hqnot
      rw [← hpq, ← hwid, hwj]
      exact hjmem

/-- C2 counterexample: an aggregate holding two records that share the
identifier 7 (identifiers derive from a creation timestamp, so duplicates
are reachable) reordered by the request consisting of exactly that
identifier.  Both records have an identifier appearing in the request, yet
the result keeps only the second (the Map construction lets the later
entry overwrite the earlier), so the list is not replaced by exactly the
records whose identifiers appear in the request. -/
theorem reorderProblems_counterexample :
    reorderProblems ["7"] (some ⟨⟨none, none⟩, .arr
      [⟨"7", "first", "link", "code", "lang", 0, 0⟩,
       ⟨"7", "second", "link", "code", "lang", 0, 1⟩]⟩)
    = .ok (some ⟨⟨none, none⟩, .arr
      [⟨"7", "second", "link", "code", "lang", 0, 0⟩]⟩) ∧
    ([⟨"7", "first", "link", "code", "lang", 0, 0⟩,
      ⟨"7", "second", "link", "code", "lang", 0, 1⟩] : List Problem).filter
        (fun p => ["7"].contains p.id) =
      [⟨"7", "first", "link", "code", "lang", 0, 0⟩,
       ⟨"7", "second", "link", "code", "lang", 0, 1⟩] :=
  ⟨rfl, by decide⟩

theorem reorderProblems_spec_witness :
    ∃ st2, reorderProblems ["2", "1"] (some ⟨⟨none, none⟩, .arr
        [⟨"1", "a", "la", "ca", "xa", 1, 0⟩,
         ⟨"2", "b", "lb", "cb", "xb", 2, 1⟩]⟩) = .ok st2 ∧
      ∃ l2, problemsArr st2 = some l2 ∧
        l2 = renumber (["2", "1"].filterMap (fun i =>
          [⟨"1", "a", "la", "ca", "xa", 1, 0⟩,
           ⟨"2", "b", "lb", "cb", "xb", 2, 1⟩].find? (fun p => p.id = i))) ∧
        l2.map (fun p => p.order) = List.range l2.length ∧
        ((["2", "1"] : List String).Perm
            (([⟨"1", "a", "la", "ca", "xa", 1, 0⟩,
               ⟨"2", "b", "lb", "cb", "xb", 2, 1⟩] : List Problem).map
              (fun p => p.id)) →
          (l2.map baseOf).Perm
            (([⟨"1", "a", "la", "ca", "xa", 1, 0⟩,
               ⟨"2", "b", "lb", "cb", "xb", 2, 1⟩] : List Problem).map baseOf)) ∧
        (∀ q ∈ ([⟨"1", "a", "la", "ca", "xa", 1, 0⟩,
            ⟨"2", "b", "lb", "cb", "xb", 2, 1⟩] : List Problem),
          q.id ∉ (["2", "1"] : List String) → ∀ p ∈ l2, p.id ≠ q.id) :=
  reorderProblems_spec ["2", "1"]
    (some ⟨⟨none, none⟩, .arr
      [⟨"1", "a", "la", "ca", "xa", 1, 0⟩,
       ⟨"2", "b", "lb", "cb", "xb", 2, 1⟩]⟩)
    [⟨"1", "a", "la", "ca", "xa", 1, 0⟩,
     ⟨"2", "b", "lb", "cb", "xb", 2, 1⟩]
    rfl (by decide) (by decide) (by decide)

/-- C5 (amended): every store operation treats an absent aggregate exactly
as the empty default aggregate — same outcome, observed through the read
operations — so absence is never an error; the read operations also
tolerate a malformed aggregate (a non-array problems value yields the
empty list, absent info fields yield empty strings); but the mutating
problem operations fail on a non-array problems value, so a malformed
aggregate does make those operations fail (see the counterexample). -/
theorem store_missing_state_spec :
    (∀ info, obsOutcome (saveProblemSetInfo info none) =
      obsOutcome (saveProblemSetInfo info (some emptyAggregate))) ∧
    (∀ p now, obsOutcome (addProblem p now none) =
      obsOutcome (addProblem p now (some emptyAggregate))) ∧
    (∀ id u, obsOutcome (updateProblem id u none) =
      obsOutcome (updateProblem id u (some emptyAggregate))) ∧
    (∀ id, obsOutcome (deleteProblem id none) =
      obsOutcome (deleteProblem id (some emptyAggregate))) ∧
    (∀ ids, obsOutcome (reorderProblems ids none) =
      obsOutcome (reorderProblems ids (some emptyAggregate))) ∧
    getProblemSetInfo none = getProblemSetInfo (some emptyAggregate) ∧
    getAllProblems none = getAllProblems (some emptyAggregate) ∧
    (∀ i, getAllProblems (some ⟨i, .notArr⟩) = []) ∧
    (∀ pr, getProblemSetInfo (some ⟨⟨none, none⟩, pr⟩) = ("", "")) ∧
    (∀ i p now, falsyOrBlank p.name = false →
      falsyOrBlank p.submissionLink = false → falsyOrBlank p.code = false →
      falsyOrBlank p.language = false →
      ∃ e, addProblem (some p) now (some ⟨i, .notArr⟩) = .error e) ∧
    (∀ i id u, ∃ e, updateProblem id u (some ⟨i, .notArr⟩) = .error e) ∧
    (∀ i id, ∃ e, deleteProblem id (some ⟨i, .notArr⟩) = .error e) ∧
    (∀ i ids, ids ≠ [] →
      ∃ e, reorderProblems ids (some ⟨i, .notArr⟩) = .error e) := by
  refine ⟨fun info => rfl, fun p now => rfl, fun id u => rfl, fun id => rfl,
    fun ids => rfl, rfl, rfl, fun i => rfl, fun pr => rfl,
    fun i p now h1 h2 h3 h4 => ⟨jsTypeError, ?_⟩,
    fun i id u => ⟨jsTypeError, rfl⟩, fun i id => ⟨jsTypeError, rfl⟩,
    fun i ids hne => ⟨"Failed to reorder problems: " ++ jsTypeError, ?_⟩⟩
  · simp [addProblem, h1, h2, h3, h4, currentOf]
  · simp only [reorderProblems]
    rw [if_neg (by simpa [List.isEmpty_iff] using hne)]
    rfl

/-- C5 counterexample: a stored aggregate whose problems field is present
but not an array makes addProblem fail on perfectly valid input — so a
malformed field does cause an operation to fail, refuting the claim that
every operation tolerates partial persisted state. -/
theorem store_missing_state_counterexample :
    ∃ e, addProblem (some ⟨some "a", some "b", some "c", some "d"⟩) 0
      (some ⟨⟨none, none⟩, JsProblems.notArr⟩) = .error e :=
  ⟨jsTypeError, rfl⟩

theorem store_missing_state_witness :
    ∃ e, addProblem (some ⟨some "n", some "s", some "c", some "l"⟩) 1
      (some ⟨⟨some "T", none⟩, JsProblems.notArr⟩) = .error e :=
  store_missing_state_spec.2.2.2.2.2.2.2.2.2.1 ⟨some "T", none⟩
    ⟨some "n", some "s", some "c", some "l"⟩ 1
    (by decide) (by decide) (by decide) (by decide)

theorem ordersDense_append (l : List Problem) (p : Problem)
    (h : ordersDense l) (hp : p.order = l.length) :
    ordersDense (l ++ [p]) := by
  unfold ordersDense at h ⊢
  rw [List.map_append, h, List.length_append, List.map_cons, List.map_nil, hp]
  simp [List.range_succ]

theorem ordersDense_set (l : List Problem) (idx : Nat) (m : Problem)
    (h : ordersDense l) (_hidx : idx < l.length) (hm : m.order = idx) :
    ordersDense (l.set idx m) := by
  unfold ordersDense at h ⊢
  rw [List.map_set, List.length_set, h, hm]
  apply List.ext_getElem
  · simp
  · intro n h1 h2
    rw [List.getElem_set]
    by_cases he : idx = n
    · subst he
      rw [if_pos rfl, List.getElem_range]
    · rw [if_neg he]

theorem goodState_applyOp (op : StoreOp) (st : StoreState)
    (hg : GoodState st) (hop : GoodOp op) : GoodState (applyOp op st) := by
  obtain ⟨l, hl, hd⟩ := hg
  unfold problemsArr at hl
  cases hp : (currentOf st).problems with
  | notArr => rw [hp] at hl; cases hl
  | arr l0 =>
    rw [hp] at hl
    injection hl with hl
    subst hl
    cases op with
    | add p now =>
      cases p with
      | none => exact ⟨l0, by simp [applyOp, runOp, addProblem, problemsArr, hp], hd⟩
      | some pr =>
        by_cases h1 : falsyOrBlank pr.name = true
        · exact ⟨l0, by simp [applyOp, runOp, addProblem, h1, problemsArr, hp], hd⟩
        · by_cases h2 : falsyOrBlank pr.submissionLink = true
          · exact ⟨l0, by simp [applyOp, runOp, addProblem, h1, h2, problemsArr, hp], hd⟩
          · by_cases h3 : falsyOrBlank pr.code = true
            · exact ⟨l0, by simp [applyOp, runOp, addProblem, h1, h2, h3, problemsArr, hp], hd⟩
            · by_cases h4 : falsyOrBlank pr.language = true
              · exact ⟨l0, by simp [applyOp, runOp, addProblem, h1, h2, h3, h4, problemsArr, hp], hd⟩
              · refine ⟨l0 ++ [⟨toString now, strTrim (pr.name.getD ""),
                  strTrim (pr.submissionLink.getD ""), pr.code.getD "",
                  strTrim (pr.language.getD ""), now, l0.length⟩], ?_, ?_⟩
                · have hrun : addProblem (some pr) now st =
                      .ok (some { currentOf st with
                        problems := .arr (l0 ++ [⟨toString now,
                          strTrim (pr.name.getD ""),
                          strTrim (pr.submissionLink.getD ""), pr.code.getD "",
                          strTrim (pr.language.getD ""), now, l0.length⟩]) }) := by
                    have hb1 : falsyOrBlank pr.name = false := by simpa using h1
                    have hb2 : falsyOrBlank pr.submissionLink = false := by
                      simpa using h2
                    have hb3 : falsyOrBlank pr.code = false := by simpa using h3
                    have hb4 : falsyOrBlank pr.language = false := by simpa using h4
                    unfold addProblem
                    simp [hb1, hb2, hb3, hb4, hp]
                  simp only [applyOp, runOp, hrun]
                  rfl
                · exact ordersDense_append l0 _ hd rfl
    | update id u =>
      cases hfi : l0.findIdx? (fun p => p.id = id) with
      | none =>
        refine ⟨l0, ?_, hd⟩
        simp [applyOp, runOp, updateProblem, hp, hfi, problemsArr]
      | some idx =>
        have hidx : idx < l0.length :=
          (List.findIdx?_eq_some_iff_findIdx_eq.mp hfi).1
        have hord : u.order = none := hop
        refine ⟨l0.set idx (mergeUpdates (l0.getD idx default) u), ?_, ?_⟩
        · have hrun : updateProblem id u st = .ok (some { currentOf st with
              problems := .arr (l0.set idx (mergeUpdates (l0.getD idx default) u)) }) := by
            unfold updateProblem
            simp only [hp, hfi]
          simp only [applyOp, runOp, hrun]
          rfl
        · apply ordersDense_set l0 idx _ hd hidx
          have hmo : (mergeUpdates (l0.getD idx default) u).order =
              (l0.getD idx default).order := by
            simp [mergeUpdates, hord]
          rw [hmo, List.getD_eq_getElem l0 default hidx]
          have hgd := congrArg (fun m => m.getD idx 0) hd
          simpa [List.getD_eq_getElem, hidx, List.getElem_range,
            List.getElem_map] using hgd
    | del id =>
      cases hfi : l0.findIdx? (fun p => p.id = id) with
      | none =>
        refine ⟨l0, ?_, hd⟩
        have hrun : deleteProblem id st = .ok st := by
          unfold deleteProblem
          simp only [hp, hfi]
        simp only [applyOp, runOp, hrun]
        unfold problemsArr
        rw [hp]
      | some idx =>
        refine ⟨renumber (l0.filter (fun p => !(p.id = id))), ?_,
          renumber_ordersDense _⟩
        have hrun : deleteProblem id st = .ok (some { currentOf st with
            problems := .arr (renumber (l0.filter (fun p => !(p.id = id)))) }) := by
          unfold deleteProblem
          simp only [hp, hfi]
        simp [applyOp, runOp, hrun, problemsArr, currentOf]
    | reorder ids =>
      by_cases hne : ids.isEmpty = true
      · refine ⟨l0, ?_, hd⟩
        have hrun : reorderProblems ids st =
            .error "Invalid input: problemIds array is empty" := by
          unfold reorderProblems
          rw [if_pos hne]
        simp only [applyOp, runOp, hrun]
        unfold problemsArr
        rw [hp]
      · have hnd : ids.Nodup := hop
        refine ⟨assignOrders (ids.filterMap (fun i => jsMapGet l0 i)), ?_, ?_⟩
        · have hrun : reorderProblems ids st = .ok (some { currentOf st with
              problems := .arr (assignOrders
                (ids.filterMap (fun i => jsMapGet l0 i))) }) := by
            unfold reorderProblems
            rw [if_neg hne]
            simp only [hp]
          simp [applyOp, runOp, hrun, problemsArr, currentOf]
        · rw [assignOrders_of_nodup _ (selected_ids_nodup ids l0 hnd)]
          exact renumber_ordersDense _

theorem goodState_applyOps (ops : List StoreOp) (st : StoreState)
    (hg : GoodState st) (hops : ∀ o ∈ ops, GoodOp o) :
    GoodState (applyOps ops st) := by
  induction ops generalizing st with
  | nil => exact hg
  | cons op rest ih =>
    have h1 := goodState_applyOp op st hg (hops op (List.mem_cons_self op rest))
    exact ih (applyOp op st) h1 (fun o ho => hops o (List.mem_cons_of_mem op ho))

/-- C1 (amended): starting from the empty aggregate, after any sequence of
mutating operations in which updateProblem is never handed an updates
object carrying an order field and reorderProblems is never handed a
request repeating an identifier, the persisted problems list has order
fields equal to positions (dense, zero-based, contiguous), and
getAllProblems returns exactly that list, whose order values are 0 to n-1
in list position order.  Because the sequence is arbitrary, the invariant
holds after every prefix, that is, after every mutating operation.  (As
literally stated over all operation calls the claim fails: an updates
object can overwrite the order field, see the counterexample, and a
duplicated identifier in a reorder request likewise breaks density.) -/
theorem store_order_invariant (ops : List StoreOp)
    (hops : ∀ o ∈ ops, GoodOp o) :
    ∃ l, problemsArr (applyOps ops none) = some l ∧
      l.map (fun p => p.order) = List.range l.length ∧
      getAllProblems (applyOps ops none) = l := by
  obtain ⟨l, h1, h2⟩ := goodState_applyOps ops none ⟨[], rfl, rfl⟩ hops
  exact ⟨l, h1, h2, getAllProblems_of_dense _ l h1 h2⟩

/-- C1 counterexample: add one valid record at tick 5, then update it with
an updates object whose order field is 99 — a call the source accepts,
since updateProblem shallow-merges arbitrary fields.  Afterwards the
single persisted record carries order 99, not 0, and the listing returns
order values different from the claimed 0 to n-1 sequence. -/
theorem store_order_invariant_counterexample :
    (getAllProblems (applyOps
        [StoreOp.add (some ⟨some "a", some "b", some "c", some "d"⟩) 5,
         StoreOp.update "5" ⟨none, none, none, none, none, none, some 99⟩]
        none)).map (fun p => p.order)
      ≠ List.range (getAllProblems (applyOps
        [StoreOp.add (some ⟨some "a", some "b", some "c", some "d"⟩) 5,
         StoreOp.update "5" ⟨none, none, none, none, none, none, some 99⟩]
        none)).length := by
  decide

theorem store_order_invariant_witness :
    ∃ l, problemsArr (applyOps
        [StoreOp.add (some ⟨some "a", some "b", some "c", some "d"⟩) 1,
         StoreOp.add (some ⟨some "e", some "f", some "g", some "h"⟩) 2,
         StoreOp.update "1" ⟨none, some "z", none, none, none, none, none⟩,
         StoreOp.reorder ["2", "1"],
         StoreOp.del "2"] none) = some l ∧
      l.map (fun p => p.order) = List.range l.length ∧
      getAllProblems (applyOps
        [StoreOp.add (some ⟨some "a", some "b", some "c", some "d"⟩) 1,
         StoreOp.add (some ⟨some "e", some "f", some "g", some "h"⟩) 2,
         StoreOp.update "1" ⟨none, some "z", none, none, none, none, none⟩,
         StoreOp.reorder ["2", "1"],
         StoreOp.del "2"] none) = l :=
  store_order_invariant
    [StoreOp.add (some ⟨some "a", some "b", some "c", some "d"⟩) 1,
     StoreOp.add (some ⟨some "e", some "f", some "g", some "h"⟩) 2,
     StoreOp.update "1" ⟨none, some "z", none, none, none, none, none⟩,
     StoreOp.reorder ["2", "1"],
     StoreOp.del "2"] (by decide)
